import Mathlib

/-!
Verification of the optimizer core of `src/src/caffe/solver.cpp`
(Solver, SGDSolver, NesterovSolver, AdaGradSolver, AdaDeltaSolver,
RMSpropSolver).

The solver's numeric type `Dtype` is modelled by `ℝ` (losses, where no
transcendental functions occur, by `ℚ`), blobs by `List ℝ`, and the
element-wise math kernels (`caffe_axpy`, `caffe_cpu_axpby`, `caffe_powx`,
`caffe_add`, `caffe_div`, `caffe_mul`, `caffe_add_scalar`, `caffe_set`,
`caffe_cpu_sign`, `caffe_copy`) by the corresponding list operations.
Fatal `LOG(FATAL)` / failed `CHECK` paths are modelled by `Option`:
`none` means the process terminates.
-/

/-- Blob data: a flat buffer of `Dtype` values. -/
abbrev Buf := List ℝ

/-- Kernel `caffe_axpy(n, a, x, y)`: `y <- a*x + y`, element-wise. -/
noncomputable def caffe_axpy (a : ℝ) (x y : Buf) : Buf :=
  List.zipWith (fun xi yi => a * xi + yi) x y

/-- Kernel `caffe_cpu_axpby(n, a, x, b, y)`: `y <- a*x + b*y`, element-wise. -/
noncomputable def caffe_cpu_axpby (a : ℝ) (x : Buf) (b : ℝ) (y : Buf) : Buf :=
  List.zipWith (fun xi yi => a * xi + b * yi) x y

/-- Kernel `caffe_copy(n, x, y)`: `y <- x`. -/
noncomputable def caffe_copy (x : Buf) : Buf := x

/-- Kernel `caffe_powx(n, x, p, y)`: `y_i <- x_i ^ p` (real power, as `std::pow`). -/
noncomputable def caffe_powx (x : Buf) (p : ℝ) : Buf :=
  x.map (fun xi => xi ^ p)

/-- Kernel `caffe_add(n, a, b, y)`: `y <- a + b`, element-wise. -/
noncomputable def caffe_add (a b : Buf) : Buf := List.zipWith (· + ·) a b

/-- Kernel `caffe_div(n, a, b, y)`: `y <- a / b`, element-wise. -/
noncomputable def caffe_div (a b : Buf) : Buf := List.zipWith (· / ·) a b

/-- Kernel `caffe_mul(n, a, b, y)`: `y <- a * b`, element-wise. -/
noncomputable def caffe_mul (a b : Buf) : Buf := List.zipWith (· * ·) a b

/-- Kernel `caffe_add_scalar(n, alpha, y)`: `y_i <- y_i + alpha`. -/
noncomputable def caffe_add_scalar (alpha : ℝ) (y : Buf) : Buf := y.map (fun yi => yi + alpha)

/-- Kernel `caffe_set(n, alpha, y)`: `y_i <- alpha`. -/
noncomputable def caffe_set (n : ℕ) (alpha : ℝ) : Buf := List.replicate n alpha

/-- Kernel `caffe_cpu_sign(n, x, y)`: `y_i <- sign(x_i)` with `sign 0 = 0`. -/
noncomputable def caffe_cpu_sign (x : Buf) : Buf := x.map Real.sign

/-- The fields of `SolverParameter` consumed by the solver code under
verification.  `update_interval` is the micro-batch accumulation count
(`has_update_interval` models presence of the optional proto field). -/
structure SolverParameter where
  lr_policy : String
  base_lr : ℝ
  gamma : ℝ
  stepsize : ℕ
  power : ℝ
  momentum : ℝ
  weight_decay : ℝ
  regularization_type : String
  delta : ℝ
  rms_decay : ℝ
  has_update_interval : Bool
  update_interval : ℕ
  snapshot : ℕ
  snapshot_after_train : Bool
  average_loss : ℕ
  max_iter : ℕ

/-- `SGDSolver::GetLearningRate` (solver.cpp lines 389-409).  `none` models
the `LOG(FATAL)` on an unknown learning-rate policy. -/
noncomputable def GetLearningRate (p : SolverParameter) (iter : ℕ) : Option ℝ :=
  if p.lr_policy = "fixed" then
    some p.base_lr
  else if p.lr_policy = "step" then
    some (p.base_lr * p.gamma ^ (iter / p.stepsize))
  else if p.lr_policy = "exp" then
    some (p.base_lr * p.gamma ^ iter)
  else if p.lr_policy = "inv" then
    some (p.base_lr * (1 + p.gamma * (iter : ℝ)) ^ (-p.power))
  else
    none

/-- A `SolverParameter` with the `step` policy of the concrete example in the
claim: `base_lr = 0.1`, `gamma = 0.5`, `stepsize = 2`. -/
noncomputable def stepExampleParam : SolverParameter :=
  { lr_policy := "step", base_lr := 0.1, gamma := 0.5, stepsize := 2,
    power := 0, momentum := 0, weight_decay := 0, regularization_type := "L2",
    delta := 0, rms_decay := 0, has_update_interval := false,
    update_interval := 1, snapshot := 0, snapshot_after_train := true,
    average_loss := 1, max_iter := 6 }

/-- C3: for every iteration `t`, the learning-rate schedule returns `base_lr`
for policy `fixed`, `base_lr * gamma ^ (t / stepsize)` (floor division) for
`step`, `base_lr * gamma ^ t` for `exp`, `base_lr * (1 + gamma*t) ^ (-power)`
for `inv`, and is fatal (returns no value) for any other policy string; the
`step` policy with `base_lr = 0.1`, `gamma = 0.5`, `stepsize = 2` yields
`0.1` at iterations 0-1, `0.05` at 2-3 and `0.025` at 4-5. -/
theorem getLearningRate_spec (p : SolverParameter) (t : ℕ) :
    (p.lr_policy = "fixed" → GetLearningRate p t = some p.base_lr)
    ∧ (p.lr_policy = "step" →
        GetLearningRate p t = some (p.base_lr * p.gamma ^ (t / p.stepsize)))
    ∧ (p.lr_policy = "exp" →
        GetLearningRate p t = some (p.base_lr * p.gamma ^ t))
    ∧ (p.lr_policy = "inv" →
        GetLearningRate p t =
          some (p.base_lr * (1 + p.gamma * (t : ℝ)) ^ (-p.power)))
    ∧ (p.lr_policy ≠ "fixed" → p.lr_policy ≠ "step" → p.lr_policy ≠ "exp" →
        p.lr_policy ≠ "inv" → GetLearningRate p t = none)
    ∧ (GetLearningRate stepExampleParam 0 = some 0.1
        ∧ GetLearningRate stepExampleParam 1 = some 0.1
        ∧ GetLearningRate stepExampleParam 2 = some 0.05
        ∧ GetLearningRate stepExampleParam 3 = some 0.05
        ∧ GetLearningRate stepExampleParam 4 = some 0.025
        ∧ GetLearningRate stepExampleParam 5 = some 0.025) := by
  refine ⟨?_, ?_, ?_, ?_, ?_, ?_⟩
  · intro h; simp [GetLearningRate, h]
  · intro h
    by_cases hf : p.lr_policy = "fixed"
    · rw [hf] at h; exact absurd h (by decide)
    · simp [GetLearningRate, hf, h]
  · intro h
    by_cases hf : p.lr_policy = "fixed"
    · rw [hf] at h; exact absurd h (by decide)
    · by_cases hs : p.lr_policy = "step"
      · rw [hs] at h; exact absurd h (by decide)
      · simp [GetLearningRate, hf, hs, h]
  · intro h
    by_cases hf : p.lr_policy = "fixed"
    · rw [hf] at h; exact absurd h (by decide)
    · by_cases hs : p.lr_policy = "step"
      · rw [hs] at h; exact absurd h (by decide)
      · by_cases he : p.lr_policy = "exp"
        · rw [he] at h; exact absurd h (by decide)
        · simp [GetLearningRate, hf, hs, he, h]
  · intro h1 h2 h3 h4; simp [GetLearningRate, h1, h2, h3, h4]
  · refine ⟨?_, ?_, ?_, ?_, ?_, ?_⟩ <;> (norm_num [GetLearningRate, stepExampleParam] <;> decide)

/-- Witness for `getLearningRate_spec`: every hypothesis-bearing component
is exercised at an explicit concrete input. -/
theorem getLearningRate_spec_witness :
    GetLearningRate stepExampleParam 2 =
      some (stepExampleParam.base_lr * stepExampleParam.gamma ^ (2 / stepExampleParam.stepsize))
    ∧ GetLearningRate { stepExampleParam with lr_policy := "fixed" } 2 =
        some stepExampleParam.base_lr
    ∧ GetLearningRate { stepExampleParam with lr_policy := "exp" } 2 =
        some (stepExampleParam.base_lr * stepExampleParam.gamma ^ 2)
    ∧ GetLearningRate { stepExampleParam with lr_policy := "inv" } 2 =
        some (stepExampleParam.base_lr *
          (1 + stepExampleParam.gamma * ((2 : ℕ) : ℝ)) ^ (-stepExampleParam.power))
    ∧ GetLearningRate { stepExampleParam with lr_policy := "poly" } 2 = none := by
  refine ⟨(getLearningRate_spec stepExampleParam 2).2.1 rfl,
    (getLearningRate_spec { stepExampleParam with lr_policy := "fixed" } 2).1 rfl,
    (getLearningRate_spec { stepExampleParam with lr_policy := "exp" } 2).2.2.1 rfl,
    (getLearningRate_spec { stepExampleParam with lr_policy := "inv" } 2).2.2.2.1 rfl,
    (getLearningRate_spec { stepExampleParam with lr_policy := "poly" } 2).2.2.2.2.1
      (by decide) (by decide) (by decide) (by decide)⟩

/-- Shared regularization preamble of every `ComputeUpdateValue` (e.g.
solver.cpp lines 456-474): if `local_decay` is nonzero, add an L2 penalty
`local_decay * data` or an L1 penalty `local_decay * sign(data)` into the
gradient buffer; any other regularization-type string is fatal.  Returns the
updated `(diff, temp)` pair. -/
noncomputable def applyRegularization (reg : String) (local_decay : ℝ)
    (data diff temp : Buf) : Option (Buf × Buf) :=
  if local_decay ≠ 0 then
    if reg = "L2" then
      some (caffe_axpy local_decay data diff, temp)
    else if reg = "L1" then
      let temp1 := caffe_cpu_sign data
      some (caffe_axpy local_decay temp1 diff, temp1)
    else
      none
  else
    some (diff, temp)

/-- `SGDSolver::ComputeUpdateValue` rate preamble (lines 440-444):
`rate = GetLearningRate(); rate /= update_interval`. -/
noncomputable def SGDSolver.rateScaled (p : SolverParameter) (t : ℕ) : Option ℝ :=
  (GetLearningRate p t).map (fun rate => rate / (p.update_interval : ℝ))

/-- `SGDSolver::ComputeUpdateValue` decay preamble (lines 446-447):
`weight_decay = param.weight_decay(); weight_decay *= update_interval`. -/
noncomputable def SGDSolver.decayScaled (p : SolverParameter) : ℝ :=
  p.weight_decay * (p.update_interval : ℝ)

/-- `NesterovSolver::ComputeUpdateValue` rate preamble (lines 555-559):
identical to the SGD one. -/
noncomputable def NesterovSolver.rateScaled (p : SolverParameter) (t : ℕ) : Option ℝ :=
  (GetLearningRate p t).map (fun rate => rate / (p.update_interval : ℝ))

/-- `NesterovSolver::ComputeUpdateValue` decay preamble (lines 561-562). -/
noncomputable def NesterovSolver.decayScaled (p : SolverParameter) : ℝ :=
  p.weight_decay * (p.update_interval : ℝ)

/-- `AdaGradSolver::ComputeUpdateValue` rate preamble (line 672): the
schedule value is used unscaled, with no `update_interval` division. -/
noncomputable def AdaGradSolver.rateScaled (p : SolverParameter) (t : ℕ) : Option ℝ :=
  GetLearningRate p t

/-- `AdaGradSolver::ComputeUpdateValue` decay preamble (line 677): the
configured decay is used unscaled. -/
noncomputable def AdaGradSolver.decayScaled (p : SolverParameter) : ℝ :=
  p.weight_decay

/-- `AdaDeltaSolver::ComputeUpdateValue` rate preamble (line 832): unscaled. -/
noncomputable def AdaDeltaSolver.rateScaled (p : SolverParameter) (t : ℕ) : Option ℝ :=
  GetLearningRate p t

/-- `AdaDeltaSolver::ComputeUpdateValue` decay preamble (line 838): unscaled. -/
noncomputable def AdaDeltaSolver.decayScaled (p : SolverParameter) : ℝ :=
  p.weight_decay

/-- `RMSpropSolver::ComputeUpdateValue` rate preamble (line 1045): unscaled. -/
noncomputable def RMSpropSolver.rateScaled (p : SolverParameter) (t : ℕ) : Option ℝ :=
  GetLearningRate p t

/-- `RMSpropSolver::ComputeUpdateValue` decay preamble (line 1052): unscaled. -/
noncomputable def RMSpropSolver.decayScaled (p : SolverParameter) : ℝ :=
  p.weight_decay

/-- Per-parameter body of `SGDSolver::ComputeUpdateValue`, CPU path
(lines 451-483).  Returns `(diff, history, temp)` after the update. -/
noncomputable def SGDSolver.computeUpdateValueParam (p : SolverParameter) (t : ℕ)
    (lr_mult wd_mult : ℝ) (data diff hist temp : Buf) : Option (Buf × Buf × Buf) :=
  (SGDSolver.rateScaled p t).bind fun rate =>
    let local_rate := rate * lr_mult
    let local_decay := SGDSolver.decayScaled p * wd_mult
    (applyRegularization p.regularization_type local_decay data diff temp).map fun dt =>
      let hist1 := caffe_cpu_axpby local_rate dt.1 p.momentum hist
      (caffe_copy hist1, hist1, dt.2)

/-- Per-parameter body of `NesterovSolver::ComputeUpdateValue`, CPU path
(lines 566-609).  Returns `(diff, history, update, temp)`. -/
noncomputable def NesterovSolver.computeUpdateValueParam (p : SolverParameter) (t : ℕ)
    (lr_mult wd_mult : ℝ) (data diff hist upd temp : Buf) :
    Option (Buf × Buf × Buf × Buf) :=
  (NesterovSolver.rateScaled p t).bind fun rate =>
    let upd1 := caffe_copy hist
    let local_rate := rate * lr_mult
    let local_decay := NesterovSolver.decayScaled p * wd_mult
    (applyRegularization p.regularization_type local_decay data diff temp).map fun dt =>
      let hist1 := caffe_cpu_axpby local_rate dt.1 p.momentum hist
      let upd2 := caffe_cpu_axpby (1 + p.momentum) hist1 (-p.momentum) upd1
      (caffe_copy upd2, hist1, upd2, dt.2)

/-- Per-parameter body of `AdaGradSolver::ComputeUpdateValue`, CPU path
(lines 681-733).  Returns `(diff, history, update, temp)`. -/
noncomputable def AdaGradSolver.computeUpdateValueParam (p : SolverParameter) (t : ℕ)
    (lr_mult wd_mult : ℝ) (data diff hist upd temp : Buf) :
    Option (Buf × Buf × Buf × Buf) :=
  (AdaGradSolver.rateScaled p t).bind fun rate =>
    let local_rate := rate * lr_mult
    let local_decay := AdaGradSolver.decayScaled p * wd_mult
    (applyRegularization p.regularization_type local_decay data diff temp).map fun dt =>
      let upd1 := caffe_powx dt.1 2
      let hist1 := caffe_add upd1 hist
      let upd2 := caffe_powx hist1 (0.5 : ℝ)
      let upd3 := caffe_add_scalar p.delta upd2
      let upd4 := caffe_div dt.1 upd3
      let diff1 := caffe_cpu_axpby local_rate upd4 0 dt.1
      (diff1, hist1, upd4, dt.2)

/-- Per-parameter body of `RMSpropSolver::ComputeUpdateValue`, CPU path
(lines 1056-1111).  Returns `(diff, history, update, temp)`. -/
noncomputable def RMSpropSolver.computeUpdateValueParam (p : SolverParameter) (t : ℕ)
    (lr_mult wd_mult : ℝ) (data diff hist upd temp : Buf) :
    Option (Buf × Buf × Buf × Buf) :=
  (RMSpropSolver.rateScaled p t).bind fun rate =>
    let local_rate := rate * lr_mult
    let local_decay := RMSpropSolver.decayScaled p * wd_mult
    (applyRegularization p.regularization_type local_decay data diff temp).map fun dt =>
      let upd1 := caffe_powx dt.1 2
      let hist1 := caffe_cpu_axpby (1 - p.rms_decay) upd1 p.rms_decay hist
      let upd2 := caffe_powx hist1 (0.5 : ℝ)
      let upd3 := caffe_add_scalar p.delta upd2
      let upd4 := caffe_div dt.1 upd3
      let diff1 := caffe_cpu_axpby local_rate upd4 0 dt.1
      (diff1, hist1, upd4, dt.2)

/-- Result buffers of the per-parameter AdaDelta update. -/
structure AdaDeltaResult where
  diff : Buf
  hist_g : Buf
  hist_u : Buf
  upd : Buf
  temp : Buf

/-- Post-decay transform of `AdaDeltaSolver::ComputeUpdateValue`, CPU path
(lines 867-926): `hist_g` is `history_[param_id]`, `hist_u` is
`history_[update_history_offset + param_id]`.  The `update_` and `temp_`
buffers are overwritten before being read, so only their final values appear. -/
noncomputable def adaDeltaTransform (momentum delta local_rate : ℝ)
    (diff hist_g hist_u : Buf) : AdaDeltaResult :=
  let upd1 := caffe_powx diff 2
  let hist_g1 := caffe_cpu_axpby (1 - momentum) upd1 momentum hist_g
  let temp1 := caffe_set diff.length delta
  let upd2 := caffe_add temp1 hist_u
  let temp2 := caffe_add temp1 hist_g1
  let upd3 := caffe_div upd2 temp2
  let upd4 := caffe_powx upd3 (0.5 : ℝ)
  let diff1 := caffe_mul diff upd4
  let upd5 := caffe_powx diff1 2
  let hist_u1 := caffe_cpu_axpby (1 - momentum) upd5 momentum hist_u
  let temp3 := caffe_cpu_axpby local_rate diff1 0 temp2
  let diff2 := caffe_copy temp3
  ⟨diff2, hist_g1, hist_u1, upd5, temp3⟩

/-- Per-parameter body of `AdaDeltaSolver::ComputeUpdateValue`, CPU path
(lines 843-933): regularization preamble followed by the AdaDelta transform. -/
noncomputable def AdaDeltaSolver.computeUpdateValueParam (p : SolverParameter) (t : ℕ)
    (lr_mult wd_mult : ℝ) (data diff hist_g hist_u temp : Buf) :
    Option AdaDeltaResult :=
  (AdaDeltaSolver.rateScaled p t).bind fun rate =>
    (applyRegularization p.regularization_type (AdaDeltaSolver.decayScaled p * wd_mult)
        data diff temp).map fun dt =>
      adaDeltaTransform p.momentum p.delta (rate * lr_mult) dt.1 hist_g hist_u

/-- Modelled from the spec's words (claim C1), for refinement comparison
only: the claimed effective learning rate
`schedule(iteration) * lr-multiplier / accumulation-count`. -/
noncomputable def claimedEffectiveRate (p : SolverParameter) (t : ℕ) (lr_mult : ℝ) :
    Option ℝ :=
  (GetLearningRate p t).map (fun r => r * lr_mult / (p.update_interval : ℝ))

/-- Modelled from the spec's words (claim C1), for refinement comparison
only: the claimed effective weight decay
`configured-decay * decay-multiplier * accumulation-count`. -/
noncomputable def claimedEffectiveDecay (p : SolverParameter) (wd_mult : ℝ) : ℝ :=
  p.weight_decay * wd_mult * (p.update_interval : ℝ)

/-- A solver configuration with fixed learning rate 1, weight decay 1 and
accumulation count `update_interval = 2`. -/
noncomputable def accumExampleParam : SolverParameter :=
  { stepExampleParam with
    lr_policy := "fixed",
    base_lr := 1,
    weight_decay := 1,
    has_update_interval := true,
    update_interval := 2 }

/-- Counterexample to C1: for the AdaGrad rule with accumulation count 2 and
all multipliers 1, the effective learning rate actually used is the raw
schedule value 1, not the claimed `schedule / update_interval = 1/2`, and the
effective decay is 1, not the claimed `decay * update_interval = 2`. -/
theorem adaGrad_effective_rate_cex :
    (AdaGradSolver.rateScaled accumExampleParam 0).map (fun r => r * 1) = some 1
    ∧ claimedEffectiveRate accumExampleParam 0 1 = some (1 / 2)
    ∧ (AdaGradSolver.rateScaled accumExampleParam 0).map (fun r => r * 1) ≠
        claimedEffectiveRate accumExampleParam 0 1
    ∧ AdaGradSolver.decayScaled accumExampleParam * 1 = 1
    ∧ claimedEffectiveDecay accumExampleParam 1 = 2
    ∧ AdaGradSolver.decayScaled accumExampleParam * 1 ≠
        claimedEffectiveDecay accumExampleParam 1 := by
  refine ⟨?_, ?_, ?_, ?_, ?_, ?_⟩ <;>
    norm_num [AdaGradSolver.rateScaled, AdaGradSolver.decayScaled, claimedEffectiveRate,
      claimedEffectiveDecay, GetLearningRate, accumExampleParam, stepExampleParam]

/-- C1 (amended): per parameter and iteration, the SGD-momentum and Nesterov
rules use effective learning rate `schedule(t) * lr-multiplier / update_interval`
and effective decay `weight_decay * decay-multiplier * update_interval`, while
the AdaGrad, AdaDelta and RMSProp rules use `schedule(t) * lr-multiplier` and
`weight_decay * decay-multiplier` with no accumulation-count scaling. -/
theorem effective_rate_decay_spec (p : SolverParameter) (t : ℕ) (lr_mult wd_mult : ℝ) :
    ((SGDSolver.rateScaled p t).map (fun r => r * lr_mult) = claimedEffectiveRate p t lr_mult)
    ∧ (SGDSolver.decayScaled p * wd_mult = claimedEffectiveDecay p wd_mult)
    ∧ ((NesterovSolver.rateScaled p t).map (fun r => r * lr_mult) =
        claimedEffectiveRate p t lr_mult)
    ∧ (NesterovSolver.decayScaled p * wd_mult = claimedEffectiveDecay p wd_mult)
    ∧ ((AdaGradSolver.rateScaled p t).map (fun r => r * lr_mult) =
        (GetLearningRate p t).map (fun r => r * lr_mult))
    ∧ (AdaGradSolver.decayScaled p * wd_mult = p.weight_decay * wd_mult)
    ∧ ((AdaDeltaSolver.rateScaled p t).map (fun r => r * lr_mult) =
        (GetLearningRate p t).map (fun r => r * lr_mult))
    ∧ (AdaDeltaSolver.decayScaled p * wd_mult = p.weight_decay * wd_mult)
    ∧ ((RMSpropSolver.rateScaled p t).map (fun r => r * lr_mult) =
        (GetLearningRate p t).map (fun r => r * lr_mult))
    ∧ (RMSpropSolver.decayScaled p * wd_mult = p.weight_decay * wd_mult) := by
  refine ⟨?_, ?_, ?_, ?_, ?_, ?_, ?_, ?_, ?_, ?_⟩ <;>
    cases h : GetLearningRate p t <;>
      simp [SGDSolver.rateScaled, SGDSolver.decayScaled, NesterovSolver.rateScaled,
        NesterovSolver.decayScaled, AdaGradSolver.rateScaled, AdaGradSolver.decayScaled,
        AdaDeltaSolver.rateScaled, AdaDeltaSolver.decayScaled, RMSpropSolver.rateScaled,
        RMSpropSolver.decayScaled, claimedEffectiveRate, claimedEffectiveDecay, h] <;>
      ring

/-- Iterations at which `Solver::Solve` emits a checkpoint inside the training
loop (lines 192-197): the loop runs `iter_` from `start_iter` to
`max_iter - 1`, and snapshots when `param_.snapshot()` is nonzero,
`iter_ > start_iter`, and `iter_ % param_.snapshot() == 0`. -/
def solveSnapshotIters (snap start_iter max_iter : ℕ) : List ℕ :=
  (List.range' start_iter (max_iter - start_iter)).filter
    (fun it => decide (snap ≠ 0) && decide (start_iter < it) && decide (it % snap = 0))

/-- Whether `Solver::Solve` emits the final checkpoint on loop exit
(line 258): `if (param_.snapshot_after_train()) Snapshot();`. -/
def finalSnapshotEmitted (snapshot_after_train : Bool) : Bool :=
  snapshot_after_train

/-- C9 (amended): a checkpoint is emitted at the start of exactly those loop
passes whose iteration is a multiple of the snapshot cadence, below
`max_iter`, and strictly greater than the start iteration (so a resumed
iteration equal to a positive multiple of the cadence gets no checkpoint);
on loop exit a final checkpoint is emitted exactly when
`snapshot_after_train` is set. -/
theorem solve_snapshot_spec (snap start_iter max_iter it : ℕ) (sat : Bool) :
    (it ∈ solveSnapshotIters snap start_iter max_iter ↔
      snap ≠ 0 ∧ start_iter < it ∧ it < max_iter ∧ it % snap = 0)
    ∧ (finalSnapshotEmitted sat = true ↔ sat = true) := by
  constructor
  · simp only [solveSnapshotIters, List.mem_filter, List.mem_range'_1, decide_eq_true_eq,
      Bool.and_eq_true]
    constructor
    · rintro ⟨⟨h1, h2⟩, ⟨hs, hgt⟩, hmod⟩
      exact ⟨hs, hgt, by omega, hmod⟩
    · rintro ⟨hs, hgt, hlt, hmod⟩
      exact ⟨⟨by omega, by omega⟩, ⟨hs, hgt⟩, hmod⟩
  · exact Iff.rfl

/-- Counterexample to C9: resuming at iteration 5 with snapshot cadence 5
(and `max_iter = 6`), iteration 5 is a positive multiple of the cadence but
no checkpoint is emitted for it, because the loop requires
`iter_ > start_iter`. -/
theorem solve_snapshot_cex :
    5 % 5 = 0 ∧ 0 < 5
    ∧ (5 : ℕ) ∉ solveSnapshotIters 5 5 6
    ∧ solveSnapshotIters 5 5 6 = [] := by
  decide

/-- Events of one pass of the training loop body that touch the network:
a forward+backward call, a gradient-accumulate step (`Net::AccumulateDiff`)
and the gradient-merge step (`Net::UpdateDiff`). -/
inductive StepEvent
  | forwardBackward
  | accumulateDiff
  | updateDiff
deriving DecidableEq

/-- `Caffe::accumulate()` as set by `Solver::Init` (lines 44-47): false when
`update_interval` is unset or equal to 1, true otherwise. -/
def caffeAccumulate (has_ui : Bool) (k : ℕ) : Bool :=
  has_ui && decide (k ≠ 1)

/-- The training-step section of one `Solver::Solve` loop pass
(lines 207-218), recording the network events in order and the loss value
stored for the pass.  `fbLoss i` is the loss returned by the `i`-th
`ForwardBackward` call of the pass. -/
def trainStep (has_ui : Bool) (k : ℕ) (fbLoss : ℕ → ℚ) : List StepEvent × ℚ :=
  if caffeAccumulate has_ui k = false then
    ([StepEvent.forwardBackward], fbLoss 0)
  else
    let acc := (List.range (k - 1)).foldl
      (fun (st : List StepEvent × ℚ) i =>
        (st.1 ++ [StepEvent.forwardBackward, StepEvent.accumulateDiff], st.2 + fbLoss i))
      ([], 0)
    (acc.1 ++ [StepEvent.forwardBackward, StepEvent.updateDiff],
      (acc.2 + fbLoss (k - 1)) / (k : ℚ))

/-- The accumulate-only phase of `trainStep` runs `m` forward+backward and
accumulate pairs and sums the first `m` losses. -/
theorem trainStep_aux_fold (fbLoss : ℕ → ℚ) (m : ℕ) :
    (List.range m).foldl
      (fun (st : List StepEvent × ℚ) i =>
        (st.1 ++ [StepEvent.forwardBackward, StepEvent.accumulateDiff], st.2 + fbLoss i))
      ([], 0)
    = ((List.replicate m [StepEvent.forwardBackward, StepEvent.accumulateDiff]).join,
        ∑ i ∈ Finset.range m, fbLoss i) := by
  induction m with
  | zero => simp
  | succ m ih =>
      rw [List.range_succ, List.foldl_append, ih, List.replicate_succ']
      simp [Finset.sum_range_succ]

/-- Forward+backward calls appear `m` times in the accumulate-only phase. -/
theorem count_fb_join_replicate (m : ℕ) :
    ((List.replicate m [StepEvent.forwardBackward, StepEvent.accumulateDiff]).join).count
      StepEvent.forwardBackward = m := by
  induction m with
  | zero => simp
  | succ m ih => rw [List.replicate_succ]; simp [ih, List.count_cons]

/-- C4 (amended): with `update_interval` unset or equal to 1, a loop pass
runs exactly one forward+backward call and records its loss; with
`update_interval = k ≥ 2`, it runs exactly `k` forward+backward calls, the
first `k-1` each followed by a gradient-accumulate step, the last followed
by the gradient-merge step, and records the sum of the `k` losses divided by
`k`; with `update_interval = 0`, it runs one forward+backward call followed
by the gradient-merge step and divides the loss by zero instead of
reporting it. -/
theorem trainStep_spec (has_ui : Bool) (k : ℕ) (fbLoss : ℕ → ℚ) :
    ((has_ui = false ∨ k = 1) →
      trainStep has_ui k fbLoss = ([StepEvent.forwardBackward], fbLoss 0))
    ∧ (has_ui = true → 2 ≤ k →
        (trainStep has_ui k fbLoss).1 =
          (List.replicate (k - 1)
            [StepEvent.forwardBackward, StepEvent.accumulateDiff]).join
            ++ [StepEvent.forwardBackward, StepEvent.updateDiff]
        ∧ (trainStep has_ui k fbLoss).2 = (∑ i ∈ Finset.range k, fbLoss i) / (k : ℚ)
        ∧ (trainStep has_ui k fbLoss).1.count StepEvent.forwardBackward = k)
    ∧ (has_ui = true → k = 0 →
        trainStep has_ui k fbLoss =
          ([StepEvent.forwardBackward, StepEvent.updateDiff], fbLoss 0 / 0)) := by
  refine ⟨?_, ?_, ?_⟩
  · rintro (h | h) <;> simp [trainStep, caffeAccumulate, h]
  · intro hui hk
    have hacc : caffeAccumulate has_ui k = true := by
      simp [caffeAccumulate, hui]; omega
    have hk1 : k - 1 + 1 = k := by omega
    have h1 : trainStep has_ui k fbLoss =
        ((List.replicate (k - 1)
            [StepEvent.forwardBackward, StepEvent.accumulateDiff]).join
          ++ [StepEvent.forwardBackward, StepEvent.updateDiff],
          (∑ i ∈ Finset.range k, fbLoss i) / (k : ℚ)) := by
      rw [trainStep, hacc]
      simp only [Bool.true_eq_false, if_false, trainStep_aux_fold]
      rw [← Finset.sum_range_succ, hk1]
    rw [h1]
    have h2 : ([StepEvent.forwardBackward, StepEvent.updateDiff]).count
        StepEvent.forwardBackward = 1 := by decide
    refine ⟨rfl, rfl, ?_⟩
    rw [List.count_append, count_fb_join_replicate, h2]
    omega
  · intro hui hk
    subst hk
    simp [trainStep, caffeAccumulate, hui]

/-- Witness for `trainStep_spec`: the three components at concrete inputs. -/
theorem trainStep_spec_witness :
    trainStep false 7 (fun i => (i : ℚ)) = ([StepEvent.forwardBackward], 0)
    ∧ ((trainStep true 3 (fun i => (i : ℚ))).1 =
        (List.replicate 2 [StepEvent.forwardBackward, StepEvent.accumulateDiff]).join
          ++ [StepEvent.forwardBackward, StepEvent.updateDiff]
      ∧ (trainStep true 3 (fun i => (i : ℚ))).2 =
          (∑ i ∈ Finset.range 3, (i : ℚ)) / (3 : ℚ)
      ∧ (trainStep true 3 (fun i => (i : ℚ))).1.count StepEvent.forwardBackward = 3)
    ∧ trainStep true 0 (fun _ => (5 : ℚ)) =
        ([StepEvent.forwardBackward, StepEvent.updateDiff], (5 : ℚ) / 0) := by
  exact ⟨(trainStep_spec false 7 (fun i => (i : ℚ))).1 (Or.inl rfl),
    (trainStep_spec true 3 (fun i => (i : ℚ))).2.1 rfl (by norm_num),
    (trainStep_spec true 0 (fun _ => (5 : ℚ))).2.2 rfl rfl⟩

/-- Counterexample to C4: with `update_interval = 0` (which is `<= 1`), the
pass records loss `5/0 = 0` (in exact arithmetic; `inf` in floating point)
rather than the single pass's loss `5`, and its event list is not a single
forward+backward call: the gradient-merge step also runs. -/
theorem trainStep_cex :
    (trainStep true 0 (fun _ => (5 : ℚ))).2 = 0
    ∧ (trainStep true 0 (fun _ => (5 : ℚ))).2 ≠ 5
    ∧ (trainStep true 0 (fun _ => (5 : ℚ))).1 ≠ [StepEvent.forwardBackward] := by
  refine ⟨?_, ?_, ?_⟩ <;> norm_num [trainStep, caffeAccumulate]

/-- State of the smoothed-loss computation in `Solver::Solve`: the `losses`
vector and the running `smoothed_loss` (lines 186-187). -/
structure LossWindow where
  losses : List ℚ
  smoothed : ℚ

/-- One iteration of the smoothed-loss update in `Solver::Solve`
(lines 220-228): while fewer than `average_loss` samples are stored, push the
loss and recompute the running mean; otherwise replace the sample at index
`(iter - start_iter) % average_loss` and adjust the mean by
`(loss - replaced) / average_loss`. -/
def updateSmoothedLoss (average_loss start_iter iter : ℕ) (loss : ℚ)
    (s : LossWindow) : LossWindow :=
  if s.losses.length < average_loss then
    let ls := s.losses ++ [loss]
    { losses := ls,
      smoothed := (s.smoothed * ((ls.length : ℚ) - 1) + loss) / (ls.length : ℚ) }
  else
    let idx := (iter - start_iter) % average_loss
    { losses := s.losses.set idx loss,
      smoothed := s.smoothed + (loss - s.losses.getD idx 0) / (average_loss : ℚ) }

/-- Run the smoothed-loss update over a stream of per-iteration losses,
starting at iteration `start_iter + i`. -/
def runLossAux (W start_iter : ℕ) (st : LossWindow) (i : ℕ) : List ℚ → LossWindow
  | [] => st
  | l :: rest =>
      runLossAux W start_iter
        (updateSmoothedLoss W start_iter (start_iter + i) l st) (i + 1) rest

/-- The smoothed-loss state after the training loop has consumed the loss
stream `s`, one value per iteration starting at `start_iter`, with window
size `W = average_loss` (initial state from lines 186-187: empty vector,
`smoothed_loss = 0`). -/
def runLossWindow (W start_iter : ℕ) (s : List ℚ) : LossWindow :=
  runLossAux W start_iter ⟨[], 0⟩ 0 s


/-- Processing one more loss is one more update step. -/
theorem runLossAux_append (W start_iter : ℕ) (st : LossWindow) (i : ℕ)
    (s : List ℚ) (a : ℚ) :
    runLossAux W start_iter st i (s ++ [a]) =
      updateSmoothedLoss W start_iter (start_iter + (i + s.length)) a
        (runLossAux W start_iter st i s) := by
  induction s generalizing st i with
  | nil => simp [runLossAux]
  | cons l rest ih =>
      simp only [List.cons_append, runLossAux, List.append_eq]
      rw [ih]
      simp only [List.length_cons]
      have h : start_iter + (i + 1 + rest.length) =
          start_iter + (i + (rest.length + 1)) := by omega
      rw [h]

/-- Successor of a circular index: either it wraps to 0 or increments. -/
theorem succ_mod_cases (W n : ℕ) (hW : 1 ≤ W) :
    (n % W + 1 = W ∧ (n + 1) % W = 0) ∨ (n % W + 1 < W ∧ (n + 1) % W = n % W + 1) := by
  by_cases hW1 : W = 1
  · subst hW1; left; simp [Nat.mod_one]
  · have h1W : 1 % W = 1 := Nat.mod_eq_of_lt (by omega)
    have key : (n + 1) % W = (n % W + 1) % W := by
      rw [Nat.add_mod, h1W]
    have hlt : n % W < W := Nat.mod_lt _ (by omega)
    rcases Nat.lt_or_ge (n % W + 1) W with h | h
    · right; exact ⟨h, by rw [key, Nat.mod_eq_of_lt h]⟩
    · left
      have hEq : n % W + 1 = W := by omega
      refine ⟨hEq, ?_⟩
      rw [key, hEq, Nat.mod_self]

/-- The fill branch (fewer than `W` samples stored) pushes the loss and
recomputes the running mean. -/
theorem updateSmoothedLoss_fill (W start_iter iter : ℕ) (loss : ℚ) (st : LossWindow)
    (h : st.losses.length < W) :
    updateSmoothedLoss W start_iter iter loss st =
      ⟨st.losses ++ [loss],
        (st.smoothed * (st.losses.length : ℚ) + loss) / ((st.losses.length : ℚ) + 1)⟩ := by
  unfold updateSmoothedLoss
  rw [if_pos h]
  simp only [List.length_append, List.length_cons, List.length_nil]
  congr 1
  push_cast
  ring_nf

/-- The full branch replaces the sample at the circular index and adjusts
the mean by `(new - replaced) / W`. -/
theorem updateSmoothedLoss_full (W start_iter iter : ℕ) (loss : ℚ) (st : LossWindow)
    (h : ¬ st.losses.length < W) :
    updateSmoothedLoss W start_iter iter loss st =
      ⟨st.losses.set ((iter - start_iter) % W) loss,
        st.smoothed + (loss - st.losses.getD ((iter - start_iter) % W) 0) / (W : ℚ)⟩ := by
  unfold updateSmoothedLoss
  rw [if_neg h]

/-- Shape invariant of the loss vector over the stream `s`: while filling it
is the stream itself; once full it is a rotation of the window of the last
`W` stream values, with the newest `length % W` values in front. -/
@[reducible] def lossShape (W : ℕ) (s ls : List ℚ) : Prop :=
  ls.length = min s.length W
  ∧ (s.length ≤ W → ls = s)
  ∧ (W ≤ s.length → ls =
      s.drop (s.length - s.length % W)
        ++ (s.drop (s.length - W)).take (W - s.length % W))

/-- Consuming one more loss is one more smoothed-loss update. -/
theorem runLossWindow_append (W start_iter : ℕ) (s : List ℚ) (a : ℚ) :
    runLossWindow W start_iter (s ++ [a]) =
      updateSmoothedLoss W start_iter (start_iter + s.length) a
        (runLossWindow W start_iter s) := by
  unfold runLossWindow
  rw [runLossAux_append]
  norm_num

/-- The loss-vector shape is preserved by one update in the filling phase. -/
theorem lossShape_fill (W start_iter : ℕ) (s : List ℚ) (a : ℚ)
    (hnW : s.length < W)
    (ihs : lossShape W s (runLossWindow W start_iter s).losses) :
    lossShape W (s ++ [a]) (runLossWindow W start_iter (s ++ [a])).losses := by
  obtain ⟨ih1, ih2, ih3⟩ := ihs
  have hlosses : (runLossWindow W start_iter s).losses = s := ih2 (by omega)
  have hbranch : (runLossWindow W start_iter s).losses.length < W := by
    rw [hlosses]; omega
  have hstep : (runLossWindow W start_iter (s ++ [a])).losses = s ++ [a] := by
    rw [runLossWindow_append, updateSmoothedLoss_fill W start_iter _ a _ hbranch,
      hlosses]
  have hlen : (s ++ [a]).length = s.length + 1 := by simp
  refine ⟨?_, fun _ => hstep, fun h => ?_⟩
  · rw [hstep, hlen]
    omega
  · rw [hstep, hlen]
    have hWn : W = s.length + 1 := by rw [hlen] at h; omega
    subst hWn
    rw [Nat.mod_self, Nat.sub_zero, Nat.sub_self, List.drop_zero]
    have htake : (s ++ [a]).take (s.length + 1) = s ++ [a] :=
      List.take_of_length_le (by simp)
    have hdrop : (s ++ [a]).drop (s.length + 1) = [] := by
      rw [← hlen]; exact List.drop_length _
    rw [htake, hdrop, List.nil_append]

/-- The loss-vector shape is preserved by one update once the window is
full: the new loss replaces the oldest stored value. -/
theorem lossShape_roll (W start_iter : ℕ) (hW : 1 ≤ W) (s : List ℚ) (a : ℚ)
    (hWn : W ≤ s.length)
    (ihs : lossShape W s (runLossWindow W start_iter s).losses) :
    lossShape W (s ++ [a]) (runLossWindow W start_iter (s ++ [a])).losses := by
  obtain ⟨ih1, _, ih3⟩ := ihs
  have hfull := ih3 hWn
  have hr : s.length % W < W := Nat.mod_lt _ (by omega)
  have hlenst : (runLossWindow W start_iter s).losses.length = W := by
    rw [ih1]; omega
  have hbranch : ¬ (runLossWindow W start_iter s).losses.length < W := by omega
  have hidx : start_iter + s.length - start_iter = s.length := by omega
  have hlen : (s ++ [a]).length = s.length + 1 := by simp
  have hstep : (runLossWindow W start_iter (s ++ [a])).losses =
      (runLossWindow W start_iter s).losses.set (s.length % W) a := by
    rw [runLossWindow_append, updateSmoothedLoss_full W start_iter _ a _ hbranch,
      hidx]
  have hAlen : (s.drop (s.length - s.length % W)).length = s.length % W := by
    rw [List.length_drop]; omega
  have hset : (runLossWindow W start_iter s).losses.set (s.length % W) a =
      s.drop (s.length - s.length % W) ++
        ((s.drop (s.length - W)).take (W - s.length % W)).set
          (s.length % W - (s.drop (s.length - s.length % W)).length) a := by
    rw [hfull]
    exact List.set_append_right _ _ (by omega)
  rw [hAlen, Nat.sub_self] at hset
  have hdropped : s.length - W < s.length := by omega
  have hcons : s.drop (s.length - W) =
      s.getD (s.length - W) 0 :: s.drop (s.length - W + 1) := by
    rw [List.drop_eq_getElem_cons hdropped]
    congr 1
    rw [List.getD_eq_getElem?_getD, List.getElem?_eq_getElem hdropped]
    rfl
  have hWr : W - s.length % W = (W - s.length % W - 1) + 1 := by omega
  have hBset : ((s.drop (s.length - W)).take (W - s.length % W)).set 0 a =
      a :: (s.drop (s.length - W + 1)).take (W - s.length % W - 1) := by
    rw [hcons, hWr, List.take_succ_cons, List.set_cons_zero]
    simp
  rw [hBset] at hset
  refine ⟨?_, fun h => ?_, fun _ => ?_⟩
  · rw [hstep]
    simp only [List.length_set]
    rw [hlenst, hlen]
    omega
  · exfalso
    rw [hlen] at h
    omega
  · rw [hstep, hset, hlen]
    rcases succ_mod_cases W s.length hW with ⟨hrw, hmod⟩ | ⟨hrw, hmod⟩
    · -- wrap-around: new index is 0
      rw [hmod, Nat.sub_zero, Nat.sub_zero]
      have hd1 : (s ++ [a]).drop (s.length + 1) = [] := by
        rw [← hlen]; exact List.drop_length _
      have hd2 : (s ++ [a]).drop (s.length + 1 - W) = s.drop (s.length + 1 - W) ++ [a] :=
        List.drop_append_of_le_length (by omega)
      have ht : (s.drop (s.length + 1 - W) ++ [a]).take W =
          s.drop (s.length + 1 - W) ++ [a] :=
        List.take_of_length_le (by simp only [List.length_append,
          List.length_drop, List.length_cons, List.length_nil]; omega)
      rw [hd1, hd2, ht, List.nil_append]
      have h0 : W - s.length % W - 1 = 0 := by omega
      have hA : s.length - s.length % W = s.length + 1 - W := by omega
      rw [h0, List.take_zero, hA]
    · -- no wrap: new index is old + 1
      rw [hmod]
      have he1 : s.length + 1 - (s.length % W + 1) = s.length - s.length % W := by
        omega
      have hd3 : (s ++ [a]).drop (s.length - s.length % W) =
          s.drop (s.length - s.length % W) ++ [a] :=
        List.drop_append_of_le_length (by omega)
      have hd4 : (s ++ [a]).drop (s.length + 1 - W) =
          s.drop (s.length + 1 - W) ++ [a] :=
        List.drop_append_of_le_length (by omega)
      rw [he1, hd3, hd4]
      have ht2 : (s.drop (s.length + 1 - W) ++ [a]).take (W - (s.length % W + 1)) =
          (s.drop (s.length + 1 - W)).take (W - (s.length % W + 1)) :=
        List.take_append_of_le_length (by rw [List.length_drop]; omega)
      rw [ht2]
      have he2 : W - (s.length % W + 1) = W - s.length % W - 1 := by omega
      have he3 : s.length - W + 1 = s.length + 1 - W := by omega
      rw [he2, ← he3]
      simp

/-- Shape of the loss vector: while filling it is the stream itself; once
full it is a rotation of the window of the last `W` stream values, with the
newest `length % W` values in front. -/
theorem runLossWindow_losses (W start_iter : ℕ) (hW : 1 ≤ W) (s : List ℚ) :
    lossShape W s (runLossWindow W start_iter s).losses := by
  induction s using List.reverseRecOn with
  | nil =>
      refine ⟨by simp [runLossWindow, runLossAux], fun _ => rfl, fun h => ?_⟩
      simp only [List.length_nil] at h
      omega
  | append_singleton s a ih =>
      by_cases hnW : s.length < W
      · exact lossShape_fill W start_iter s a hnW ih
      · exact lossShape_roll W start_iter hW s a (by omega) ih

/-- The running smoothed loss equals the mean of the last `min length W`
stream values at every point of the run. -/
theorem runLossWindow_smoothed (W start_iter : ℕ) (hW : 1 ≤ W) (s : List ℚ) :
    (runLossWindow W start_iter s).smoothed =
      (s.drop (s.length - W)).sum / ((min s.length W : ℕ) : ℚ) := by
  induction s using List.reverseRecOn with
  | nil => simp [runLossWindow, runLossAux]
  | append_singleton s a ih =>
      obtain ⟨h1, h2, h3⟩ := runLossWindow_losses W start_iter hW s
      have hrun := runLossWindow_append W start_iter s a
      have hlen' : (s ++ [a]).length = s.length + 1 := by simp
      rw [hrun, hlen']
      by_cases hnW : s.length < W
      · -- fill branch: running mean of all samples so far
        have hlosses := h2 (by omega)
        have hbranch : (runLossWindow W start_iter s).losses.length < W := by
          rw [hlosses]; omega
        rw [updateSmoothedLoss_fill W start_iter _ a _ hbranch, hlosses]
        dsimp only
        rw [ih]
        have hd0 : s.length - W = 0 := by omega
        have hd0' : s.length + 1 - W = 0 := by omega
        have hmin : min s.length W = s.length := by omega
        have hmin' : min (s.length + 1) W = s.length + 1 := by omega
        rw [hd0, hd0', List.drop_zero, List.drop_zero, hmin, hmin',
          List.sum_append, List.sum_cons, List.sum_nil]
        by_cases hn0 : s.length = 0
        · have hs : s = [] := List.length_eq_zero.mp hn0
          subst hs
          simp
        · have hne : (s.length : ℚ) ≠ 0 := by exact_mod_cast hn0
          push_cast
          rw [div_mul_cancel₀ _ hne]
          ring
      · -- full branch
        have hWn : W ≤ s.length := by omega
        have hfull := h3 hWn
        have hr : s.length % W < W := Nat.mod_lt _ (by omega)
        have hlenst : (runLossWindow W start_iter s).losses.length = W := by
          rw [h1]; omega
        have hbranch : ¬ (runLossWindow W start_iter s).losses.length < W := by omega
        rw [updateSmoothedLoss_full W start_iter _ a _ hbranch]
        dsimp only
        have hidx : start_iter + s.length - start_iter = s.length := by omega
        rw [hidx]
        have hAlen : (s.drop (s.length - s.length % W)).length = s.length % W := by
          rw [List.length_drop]; omega
        have hdropped : s.length - W < s.length := by omega
        have hcons : s.drop (s.length - W) =
            s.getD (s.length - W) 0 :: s.drop (s.length - W + 1) := by
          rw [List.drop_eq_getElem_cons hdropped]
          congr 1
          rw [List.getD_eq_getElem?_getD, List.getElem?_eq_getElem hdropped]
          rfl
        have hWr : W - s.length % W = (W - s.length % W - 1) + 1 := by omega
        have hgetD : (runLossWindow W start_iter s).losses.getD (s.length % W) 0 =
            s.getD (s.length - W) 0 := by
          rw [hfull, List.getD_eq_getElem?_getD,
            List.getElem?_append_right (by omega), hAlen, Nat.sub_self,
            hcons, hWr, List.take_succ_cons, List.getElem?_cons_zero]
          rfl
        rw [hgetD, ih]
        have hd2 : (s ++ [a]).drop (s.length + 1 - W) =
            s.drop (s.length + 1 - W) ++ [a] :=
          List.drop_append_of_le_length (by omega)
        rw [hd2, List.sum_append, List.sum_cons, List.sum_nil]
        have hsum : (s.drop (s.length - W)).sum =
            s.getD (s.length - W) 0 + (s.drop (s.length - W + 1)).sum := by
          rw [hcons, List.sum_cons]
        have he3 : s.length - W + 1 = s.length + 1 - W := by omega
        rw [hsum, he3]
        have hminW : min s.length W = W := by omega
        have hminW' : min (s.length + 1) W = W := by omega
        rw [hminW, hminW']
        have hWne : (W : ℚ) ≠ 0 := by exact_mod_cast (by omega : W ≠ 0)
        field_simp
        ring

/-- For a nonempty stream, the values after position `length - 1` sum to the
last value. -/
theorem drop_length_sub_one_sum (s : List ℚ) (h : s ≠ []) :
    (s.drop (s.length - 1)).sum = s.getLastD 0 := by
  rcases List.eq_nil_or_concat s with rfl | ⟨L, b, rfl⟩
  · exact absurd rfl h
  · rw [List.concat_eq_append]
    have hl : (L ++ [b]).length - 1 = L.length := by simp
    rw [hl, List.drop_left, List.getLastD_concat]
    simp

/-- C2: with loss-averaging window `W >= 1`, while fewer than `W` losses have
been recorded the smoothed loss is the arithmetic mean of all losses so far;
once `W` losses are recorded each new loss replaces the stored loss at index
`(iteration - start_iteration) mod W` and the smoothed loss is adjusted by
`(new - replaced)/W`, so that in exact arithmetic the smoothed loss always
equals the simple moving average of the last `W` losses; for `W = 1` the
smoothed loss equals the raw loss of the current iteration. -/
theorem smoothed_loss_spec (W start_iter : ℕ) (s : List ℚ) (hW : 1 ≤ W) :
    (runLossWindow W start_iter s).smoothed =
      (s.drop (s.length - W)).sum / ((min s.length W : ℕ) : ℚ)
    ∧ (s.length ≤ W →
        (runLossWindow W start_iter s).smoothed = s.sum / (s.length : ℚ))
    ∧ (W ≤ s.length →
        (runLossWindow W start_iter s).smoothed =
          (s.drop (s.length - W)).sum / (W : ℚ))
    ∧ (W = 1 → s ≠ [] →
        (runLossWindow W start_iter s).smoothed = s.getLastD 0)
    ∧ (∀ st : LossWindow, ∀ it loss, ¬ st.losses.length < W →
        updateSmoothedLoss W start_iter it loss st =
          ⟨st.losses.set ((it - start_iter) % W) loss,
            st.smoothed + (loss - st.losses.getD ((it - start_iter) % W) 0) / (W : ℚ)⟩) := by
  refine ⟨runLossWindow_smoothed W start_iter hW s, ?_, ?_, ?_, ?_⟩
  · intro h
    rw [runLossWindow_smoothed W start_iter hW s]
    have e1 : s.length - W = 0 := by omega
    have e2 : min s.length W = s.length := by omega
    rw [e1, e2, List.drop_zero]
  · intro h
    rw [runLossWindow_smoothed W start_iter hW s]
    have e2 : min s.length W = W := by omega
    rw [e2]
  · intro hW1 hne
    subst hW1
    rw [runLossWindow_smoothed 1 start_iter (le_refl 1) s]
    have hpos : 1 ≤ s.length := List.length_pos.mpr hne
    have e2 : min s.length 1 = 1 := by omega
    rw [e2, drop_length_sub_one_sum s hne]
    norm_num
  · exact fun st it loss h => updateSmoothedLoss_full W start_iter it loss st h

/-- Witness for `smoothed_loss_spec`: window 2 over the stream
`[1, 3, 5, 7]` starting at iteration 10, and window 1 over `[2, 9]`. -/
theorem smoothed_loss_spec_witness :
    (runLossWindow 2 10 [1, 3, 5, 7]).smoothed =
      (([1, 3, 5, 7] : List ℚ).drop (([1, 3, 5, 7] : List ℚ).length - 2)).sum /
        ((min ([1, 3, 5, 7] : List ℚ).length 2 : ℕ) : ℚ)
    ∧ (runLossWindow 2 10 [1, 3, 5, 7]).smoothed =
        (([1, 3, 5, 7] : List ℚ).drop (([1, 3, 5, 7] : List ℚ).length - 2)).sum / (2 : ℚ)
    ∧ (runLossWindow 1 10 [2, 9]).smoothed = ([2, 9] : List ℚ).getLastD 0 := by
  refine ⟨(smoothed_loss_spec 2 10 [1, 3, 5, 7] (by decide)).1,
    (smoothed_loss_spec 2 10 [1, 3, 5, 7] (by decide)).2.2.1 (by decide),
    (smoothed_loss_spec 1 10 [2, 9] (by decide)).2.2.2.1 rfl (by simp)⟩

/-- `SGDSolver::PreSolve` (lines 412-431): the history gets one zero-filled
blob per parameter, shaped like that parameter (`shapes` lists the element
count of each parameter). -/
noncomputable def SGDSolver.PreSolveHistory (shapes : List ℕ) : List Buf :=
  shapes.map (fun c => List.replicate c 0)

/-- `AdaDeltaSolver::PreSolve` (lines 799-824): the history gets two
zero-filled blobs per parameter: first one per parameter (gradient
accumulators, lines 806-817), then a second one per parameter (update
accumulators, lines 818-823). -/
noncomputable def AdaDeltaSolver.PreSolveHistory (shapes : List ℕ) : List Buf :=
  shapes.map (fun c => List.replicate c 0) ++ shapes.map (fun c => List.replicate c 0)

/-- The solver state relevant to snapshot/restore: iteration counter, the
training network's parameter weights, and the history blobs. -/
structure SolverCore where
  iter : ℕ
  weights : List Buf
  history : List Buf

/-- Serialized model file (`Net::ToProto`): the parameter weights. -/
structure NetParamFile where
  weights : List Buf

/-- Serialized `SolverState` (lines 358-361, 529-537): the iteration, the
history blobs in parameter order, and the reference to the model file. -/
structure SolverStateProto where
  iter : ℕ
  history : List Buf
  learned_net : Option String

/-- Model filename `<snapshot_prefix>_iter_<N>.caffemodel` (lines 350-355). -/
def snapshotModelFilename (pre : String) (iter : ℕ) : String :=
  pre ++ "_iter_" ++ toString iter ++ ".caffemodel"

/-- `Solver::Snapshot` (lines 345-365): write the model file, then the state
file, named by appending ".solverstate" to the model filename, holding the
history, the iteration and the model-file reference.  Returns the two
(filename, contents) pairs. -/
noncomputable def SolverSnapshot (pre : String) (s : SolverCore) :
    (String × NetParamFile) × (String × SolverStateProto) :=
  let filename := snapshotModelFilename pre s.iter
  ((filename, ⟨s.weights⟩),
    (filename ++ ".solverstate", ⟨s.iter, s.history, some filename⟩))

/-- `Solver::Restore` (lines 367-378) with `SGDSolver::RestoreSolverState`
(lines 539-547): if the state references a model file, load it and overwrite
the weights; set the iteration from the state; reload the history, failing
fatally (`CHECK_EQ`, modelled by `none`) when the stored history count
differs from the solver's current history count. -/
noncomputable def SolverRestore (readModel : String → NetParamFile)
    (state : SolverStateProto) (s : SolverCore) : Option SolverCore :=
  let s1 := match state.learned_net with
    | some f => { s with weights := (readModel f).weights }
    | none => s
  let s2 := { s1 with iter := state.iter }
  if state.history.length = s2.history.length then
    some { s2 with history := state.history }
  else
    none

/-- C5: a snapshot at iteration N writes a model file named
`<prefix>_iter_<N>.caffemodel` and a state file named
`<model filename>.solverstate` containing the iteration, the history blobs
in parameter order and the model-file reference; restoring it into a fresh
solver of identical configuration (same history-buffer count) yields the
snapshot's iteration, weights and history. -/
theorem snapshot_restore_roundtrip (pre : String) (s f : SolverCore)
    (readModel : String → NetParamFile)
    (hlen : f.history.length = s.history.length)
    (hread : readModel (snapshotModelFilename pre s.iter) = ((SolverSnapshot pre s).1).2) :
    ((SolverSnapshot pre s).1).1 = pre ++ "_iter_" ++ toString s.iter ++ ".caffemodel"
    ∧ ((SolverSnapshot pre s).2).1 = ((SolverSnapshot pre s).1).1 ++ ".solverstate"
    ∧ ((SolverSnapshot pre s).2).2 =
        ⟨s.iter, s.history, some (((SolverSnapshot pre s).1).1)⟩
    ∧ SolverRestore readModel ((SolverSnapshot pre s).2).2 f =
        some ⟨s.iter, s.weights, s.history⟩ := by
  refine ⟨rfl, rfl, rfl, ?_⟩
  simp only [SolverRestore, SolverSnapshot, hread]
  rw [if_pos hlen.symm]

/-- Witness for `snapshot_restore_roundtrip` at a concrete snapshot. -/
theorem snapshot_restore_roundtrip_witness :
    ((SolverSnapshot "net" ⟨3, [[1]], [[2]]⟩).1).1 =
      "net" ++ "_iter_" ++ toString 3 ++ ".caffemodel"
    ∧ ((SolverSnapshot "net" ⟨3, [[1]], [[2]]⟩).2).1 =
        ((SolverSnapshot "net" ⟨3, [[1]], [[2]]⟩).1).1 ++ ".solverstate"
    ∧ ((SolverSnapshot "net" ⟨3, [[1]], [[2]]⟩).2).2 =
        ⟨3, [[2]], some (((SolverSnapshot "net" ⟨3, [[1]], [[2]]⟩).1).1)⟩
    ∧ SolverRestore (fun _ => ⟨[[1]]⟩) ((SolverSnapshot "net" ⟨3, [[1]], [[2]]⟩).2).2
        ⟨0, [[0]], [[9]]⟩ = some ⟨3, [[1]], [[2]]⟩ :=
  snapshot_restore_roundtrip "net" ⟨3, [[1]], [[2]]⟩ ⟨0, [[0]], [[9]]⟩
    (fun _ => ⟨[[1]]⟩) rfl rfl

/-- C6 (amended): restore overwrites the weights from the referenced model
file exactly when the state holds a model-file reference (the history is
taken only from the state file), sets the iteration from the state, and is
fatal exactly when the stored history count differs from the solver's
current history-buffer count — which is the parameter count for the SGD-style
rules but twice the parameter count for AdaDelta. -/
theorem restore_spec (readModel : String → NetParamFile)
    (state : SolverStateProto) (s : SolverCore) (shapes : List ℕ) :
    (SolverRestore readModel state s = none ↔
      state.history.length ≠ s.history.length)
    ∧ (state.history.length = s.history.length →
        SolverRestore readModel state s = some
          ⟨state.iter,
            match state.learned_net with
            | some f => (readModel f).weights
            | none => s.weights,
            state.history⟩)
    ∧ (SGDSolver.PreSolveHistory shapes).length = shapes.length
    ∧ (AdaDeltaSolver.PreSolveHistory shapes).length = 2 * shapes.length := by
  refine ⟨?_, ?_, by simp [SGDSolver.PreSolveHistory], ?_⟩
  · rcases hl : state.learned_net with _ | fn <;>
      · simp only [SolverRestore, hl]
        split_ifs with h <;> simp [h]
  · intro h
    rcases hl : state.learned_net with _ | fn <;>
      simp [SolverRestore, hl, h]
  · simp only [AdaDeltaSolver.PreSolveHistory, List.length_append, List.length_map]
    omega

/-- Witness for `restore_spec` at a concrete restore. -/
theorem restore_spec_witness :
    (SolverRestore (fun _ => ⟨[[7]]⟩) ⟨4, [[2]], some "m"⟩ ⟨0, [[0]], [[9]]⟩ = none ↔
      ([([2] : Buf)] : List Buf).length ≠ ([([9] : Buf)] : List Buf).length)
    ∧ SolverRestore (fun _ => ⟨[[7]]⟩) ⟨4, [[2]], some "m"⟩ ⟨0, [[0]], [[9]]⟩ =
        some ⟨4, [[7]], [[2]]⟩ := by
  refine ⟨(restore_spec (fun _ => ⟨[[7]]⟩) ⟨4, [[2]], some "m"⟩ ⟨0, [[0]], [[9]]⟩ []).1, ?_⟩
  exact (restore_spec (fun _ => ⟨[[7]]⟩) ⟨4, [[2]], some "m"⟩ ⟨0, [[0]], [[9]]⟩ []).2.1 rfl

/-- Counterexample to C6: an AdaDelta solver with one parameter holds two
history blobs after `PreSolve`, so a state file storing exactly one history
blob — matching the parameter count, which by the claim should restore — is
fatally rejected. -/
theorem restore_cex :
    (AdaDeltaSolver.PreSolveHistory [1]).length = 2
    ∧ ([([0] : Buf)] : List Buf).length = ([1] : List ℕ).length
    ∧ SolverRestore (fun _ => ⟨[[0]]⟩) ⟨5, [[0]], none⟩
        ⟨0, [[0]], AdaDeltaSolver.PreSolveHistory [1]⟩ = none := by
  refine ⟨rfl, rfl, ?_⟩
  simp [SolverRestore, AdaDeltaSolver.PreSolveHistory]

/-- Global execution phase (`Caffe::phase`). -/
inductive Phase
  | TRAIN
  | TEST
deriving DecidableEq

/-- The state touched by `Solver::Test`: the global phase flag, the training
network's parameter weights and the test network's shared weights. -/
structure TestState where
  phase : Phase
  trainWeights : List Buf
  testWeights : List Buf

/-- The forward loop of `Solver::Test` (lines 297-322): over `test_iter`
pure forward passes, flatten the output blobs into scores, initializing the
accumulators on the first iteration and summing element-wise afterwards, and
sum the per-iteration losses.  `forward i w` gives the output blobs and loss
of the `i`-th forward pass at weights `w`. -/
noncomputable def testForwardLoop (forward : ℕ → List Buf → List Buf × ℝ)
    (w : List Buf) (test_iter : ℕ) : List ℝ × ℝ :=
  (List.range test_iter).foldl
    (fun (acc : List ℝ × ℝ) i =>
      ((if i = 0 then (forward i w).1.join
        else List.zipWith (· + ·) acc.1 (forward i w).1.join),
        acc.2 + (forward i w).2))
    ([], 0)

/-- `Solver::Test` (lines 285-342): set the global phase to TEST, share the
training network's weights into the test network
(`ShareTrainedLayersWith`), run the forward loop, then set the phase back to
TRAIN before returning. -/
noncomputable def SolverTest (forward : ℕ → List Buf → List Buf × ℝ)
    (test_iter : ℕ) (st : TestState) : TestState × (List ℝ × ℝ) :=
  let st1 : TestState := { st with phase := Phase.TEST }
  let st2 : TestState := { st1 with testWeights := st1.trainWeights }
  let scores := testForwardLoop forward st2.testWeights test_iter
  ({ st2 with phase := Phase.TRAIN }, scores)

/-- `Solver::TestAll` (lines 277-282): run `Solver::Test` on every test
network in order. -/
noncomputable def SolverTestAll (forwards : List (ℕ → List Buf → List Buf × ℝ))
    (test_iter : ℕ) (st : TestState) : TestState :=
  forwards.foldl (fun stx fwd => (SolverTest fwd test_iter stx).1) st

/-- `Solver::TestAll` never changes the training weights. -/
theorem solverTestAll_trainWeights (forwards : List (ℕ → List Buf → List Buf × ℝ))
    (test_iter : ℕ) (st : TestState) :
    (SolverTestAll forwards test_iter st).trainWeights = st.trainWeights := by
  induction forwards generalizing st with
  | nil => rfl
  | cons f rest ih =>
      show (SolverTestAll rest test_iter (SolverTest f test_iter st).1).trainWeights =
        st.trainWeights
      rw [ih]
      rfl

/-- C7: an evaluation pass leaves the training network's weights unchanged,
leaves the test network's shared weights equal to the training weights,
and restores the global phase to TRAIN before returning; any number of
evaluation-pass rounds leaves the training weights unchanged. -/
theorem solver_test_readonly (forward : ℕ → List Buf → List Buf × ℝ)
    (forwards : List (ℕ → List Buf → List Buf × ℝ)) (test_iter : ℕ)
    (st : TestState) (m : ℕ) :
    ((SolverTest forward test_iter st).1).trainWeights = st.trainWeights
    ∧ ((SolverTest forward test_iter st).1).phase = Phase.TRAIN
    ∧ ((SolverTest forward test_iter st).1).testWeights = st.trainWeights
    ∧ ((SolverTestAll forwards test_iter)^[m] st).trainWeights = st.trainWeights := by
  refine ⟨rfl, rfl, rfl, ?_⟩
  induction m generalizing st with
  | zero => rfl
  | succ m ih =>
      rw [Function.iterate_succ_apply, ih, solverTestAll_trainWeights]

/-- Flattened-score owner ids as built by the first test iteration
(lines 305-312): output blob `j` with `c` elements contributes `c`
consecutive scores with `test_score_output_id = j`; `j` starts at 0 and
increments per blob. -/
def testScoreOutputIdFrom (j : ℕ) : List ℕ → List ℕ
  | [] => []
  | c :: rest => List.replicate c j ++ testScoreOutputIdFrom (j + 1) rest

/-- `test_score_output_id` for a test network whose output blobs have
element counts `counts`. -/
def testScoreOutputId (counts : List ℕ) : List ℕ :=
  testScoreOutputIdFrom 0 counts

/-- Blob index used for the loss-weight lookup of the `i`-th flattened score
in the evaluation report (lines 330-331):
`test_net->output_blob_indices()[i]`, indexed by the score position `i`. -/
def testLossWeightBlobIndex (output_blob_indices : List ℕ) (i : ℕ) : Option ℕ :=
  output_blob_indices[i]?

/-- Blob index used for the output-name lookup of the `i`-th flattened score
in the evaluation report (lines 328-329):
`output_blob_indices()[test_score_output_id[i]]`, indexed by the owning
output blob. -/
def testNameBlobIndex (output_blob_indices counts : List ℕ) (i : ℕ) : Option ℕ :=
  ((testScoreOutputId counts)[i]?).bind (fun j => output_blob_indices[j]?)

/-- Blob index used for both lookups of output blob `j` in the training
display (lines 234-239): `net_->output_blob_indices()[j]`. -/
def trainLossWeightBlobIndex (output_blob_indices : List ℕ) (j : ℕ) : Option ℕ :=
  output_blob_indices[j]?

/-- With every output blob of element count 1, the owner of the `i`-th score
is `i` itself. -/
theorem testScoreOutputIdFrom_ones (counts : List ℕ) (hc : ∀ c ∈ counts, c = 1) :
    ∀ j, testScoreOutputIdFrom j counts = List.range' j counts.length := by
  induction counts with
  | nil => intro j; rfl
  | cons c rest ih =>
      intro j
      have hc1 : c = 1 := hc c (by simp)
      have hrest : ∀ x ∈ rest, x = 1 := fun x hx => hc x (by simp [hx])
      simp only [testScoreOutputIdFrom, hc1, List.replicate_one, List.length_cons,
        List.range'_succ, ih hrest (j + 1)]
      simp

/-- C10: the evaluation report looks the loss weight of the `i`-th flattened
score up at `output_blob_indices[i]` (the score position) while the training
display uses `output_blob_indices[j]` of the owning output blob `j`; the two
lookups agree for every network whose output blobs each hold exactly one
element, and for the network with one 2-element output blob the evaluation
lookup for score 1 reads past the end of the index list instead of the
owning blob's entry. -/
theorem test_loss_weight_indexing (obi counts : List ℕ) (i : ℕ)
    (hc : ∀ c ∈ counts, c = 1) :
    testScoreOutputId counts = List.range counts.length
    ∧ (∀ j, (testScoreOutputId counts)[i]? = some j →
        testLossWeightBlobIndex obi i = trainLossWeightBlobIndex obi j)
    ∧ testScoreOutputId [2] = [0, 0]
    ∧ testLossWeightBlobIndex [4] 1 = none
    ∧ trainLossWeightBlobIndex [4] 0 = some 4
    ∧ testLossWeightBlobIndex [4] 1 ≠ trainLossWeightBlobIndex [4] 0 := by
  have h1 : testScoreOutputId counts = List.range counts.length := by
    rw [testScoreOutputId, testScoreOutputIdFrom_ones counts hc 0, List.range_eq_range']
  refine ⟨h1, ?_, by decide, by decide, by decide, by decide⟩
  intro j hj
  rw [h1] at hj
  rcases Nat.lt_or_ge i counts.length with hi | hi
  · rw [List.getElem?_eq_getElem
      (show i < (List.range counts.length).length by simpa using hi)] at hj
    simp only [List.getElem_range, Option.some.injEq] at hj
    subst hj
    rfl
  · have hnone : (List.range counts.length)[i]? = none := by
      apply List.getElem?_eq_none
      simpa using hi
    rw [hnone] at hj
    exact Option.noConfusion hj

/-- Witness for `test_loss_weight_indexing`: two 1-element output blobs with
blob indices `[3, 7]`, score position 1. -/
theorem test_loss_weight_indexing_witness :
    testScoreOutputId [1, 1] = List.range 2
    ∧ testLossWeightBlobIndex [3, 7] 1 = trainLossWeightBlobIndex [3, 7] 1 := by
  refine ⟨?_, ?_⟩
  · exact (test_loss_weight_indexing [3, 7] [1, 1] 1 (by decide)).1
  · exact (test_loss_weight_indexing [3, 7] [1, 1] 1 (by decide)).2.1 1 (by decide)

/-- Reading a `zipWith` buffer at an in-range position. -/
theorem getD_zipWith (f : ℝ → ℝ → ℝ) (x y : Buf) (j : ℕ)
    (hx : j < x.length) (hy : j < y.length) :
    (List.zipWith f x y).getD j 0 = f (x.getD j 0) (y.getD j 0) := by
  induction x generalizing y j with
  | nil => simp at hx
  | cons a xs ih =>
      cases y with
      | nil => simp at hy
      | cons b ys =>
          cases j with
          | zero => rfl
          | succ j =>
              simp only [List.zipWith_cons_cons, List.getD_cons_succ]
              exact ih ys j (by simpa using hx) (by simpa using hy)

/-- Reading a `map` buffer at an in-range position. -/
theorem getD_map (f : ℝ → ℝ) (x : Buf) (j : ℕ) (hx : j < x.length) :
    (x.map f).getD j 0 = f (x.getD j 0) := by
  induction x generalizing j with
  | nil => simp at hx
  | cons a xs ih =>
      cases j with
      | zero => rfl
      | succ j =>
          simp only [List.map_cons, List.getD_cons_succ]
          exact ih j (by simpa using hx)

/-- Reading a `replicate` buffer at an in-range position. -/
theorem getD_replicate (n : ℕ) (a : ℝ) (j : ℕ) (h : j < n) :
    (List.replicate n a).getD j 0 = a := by
  induction n generalizing j with
  | zero => omega
  | succ n ih =>
      cases j with
      | zero => rfl
      | succ j =>
          simp only [List.replicate_succ, List.getD_cons_succ]
          exact ih j (by omega)

/-- Reading a `set` result at the written position. -/
theorem getD_set_eq {α : Type} (l : List α) (i : ℕ) (a d : α) (h : i < l.length) :
    (l.set i a).getD i d = a := by
  induction l generalizing i with
  | nil => simp at h
  | cons b bs ih =>
      cases i with
      | zero => rfl
      | succ i =>
          simp only [List.set_cons_succ, List.getD_cons_succ]
          exact ih i (by simpa using h)

/-- Reading a `set` result away from the written position. -/
theorem getD_set_ne {α : Type} (l : List α) (i j : ℕ) (a d : α) (h : i ≠ j) :
    (l.set i a).getD j d = l.getD j d := by
  induction l generalizing i j with
  | nil => rfl
  | cons b bs ih =>
      cases i with
      | zero =>
          cases j with
          | zero => omega
          | succ j => rfl
      | succ i =>
          cases j with
          | zero => rfl
          | succ j =>
              simp only [List.set_cons_succ, List.getD_cons_succ]
              exact ih i j (by omega)

/-- C8 element formulas of the AdaDelta transform: with post-decay gradient
`g`, the new gradient accumulator is `(1-momentum)*g^2 + momentum*grad_h`,
the produced step is `Delta = sqrt((update_h + delta)/(grad_h' + delta)) * g`,
the new update accumulator is `(1-momentum)*Delta^2 + momentum*update_h`, and
the written gradient is `local_rate * Delta`. -/
theorem adaDeltaTransform_spec (momentum delta local_rate : ℝ)
    (diff hist_g hist_u : Buf) (hg : hist_g.length = diff.length)
    (hu : hist_u.length = diff.length) (j : ℕ) (hj : j < diff.length) :
    ((adaDeltaTransform momentum delta local_rate diff hist_g hist_u).hist_g).getD j 0 =
        (1 - momentum) * diff.getD j 0 ^ 2 + momentum * hist_g.getD j 0
    ∧ ((adaDeltaTransform momentum delta local_rate diff hist_g hist_u).diff).getD j 0 =
        local_rate * (Real.sqrt ((hist_u.getD j 0 + delta) /
            ((1 - momentum) * diff.getD j 0 ^ 2 + momentum * hist_g.getD j 0 + delta)) *
          diff.getD j 0)
    ∧ ((adaDeltaTransform momentum delta local_rate diff hist_g hist_u).hist_u).getD j 0 =
        (1 - momentum) * (Real.sqrt ((hist_u.getD j 0 + delta) /
            ((1 - momentum) * diff.getD j 0 ^ 2 + momentum * hist_g.getD j 0 + delta)) *
          diff.getD j 0) ^ 2 + momentum * hist_u.getD j 0 := by
  have hx2 : ∀ x : ℝ, x ^ (2 : ℝ) = x ^ 2 := fun x => by
    rw [show (2 : ℝ) = ((2 : ℕ) : ℝ) by norm_num, Real.rpow_natCast]
  have hsqrt : ∀ x : ℝ, x ^ (0.5 : ℝ) = Real.sqrt x := fun x => by
    rw [Real.sqrt_eq_rpow]
    norm_num
  have hjA : j < (caffe_powx diff 2).length := by simp [caffe_powx]; omega
  have vA1 : (caffe_powx diff 2).getD j 0 = diff.getD j 0 ^ 2 := by
    rw [caffe_powx, getD_map _ _ j (by simpa [caffe_powx] using hjA), hx2]
  have hjG1 : j < (caffe_cpu_axpby (1 - momentum) (caffe_powx diff 2) momentum hist_g).length := by
    simp [caffe_cpu_axpby, caffe_powx, hg]; omega
  have vG1 : (caffe_cpu_axpby (1 - momentum) (caffe_powx diff 2) momentum hist_g).getD j 0 =
      (1 - momentum) * diff.getD j 0 ^ 2 + momentum * hist_g.getD j 0 := by
    rw [caffe_cpu_axpby, getD_zipWith _ _ _ j (by simpa [caffe_powx] using hjA) (by omega),
      vA1]
  have vT1 : (caffe_set diff.length delta).getD j 0 = delta := by
    rw [caffe_set]
    exact getD_replicate _ _ j hj
  have vU2 : (caffe_add (caffe_set diff.length delta) hist_u).getD j 0 =
      hist_u.getD j 0 + delta := by
    rw [caffe_add, getD_zipWith _ _ _ j (by simp [caffe_set]; omega) (by omega), vT1]
    ring
  have vT2 : (caffe_add (caffe_set diff.length delta)
      (caffe_cpu_axpby (1 - momentum) (caffe_powx diff 2) momentum hist_g)).getD j 0 =
      (1 - momentum) * diff.getD j 0 ^ 2 + momentum * hist_g.getD j 0 + delta := by
    rw [caffe_add, getD_zipWith _ _ _ j (by simp [caffe_set]; omega) hjG1, vT1, vG1]
    ring
  have hjU2 : j < (caffe_add (caffe_set diff.length delta) hist_u).length := by
    simp [caffe_add, caffe_set, hu]; omega
  have hjT2 : j < (caffe_add (caffe_set diff.length delta)
      (caffe_cpu_axpby (1 - momentum) (caffe_powx diff 2) momentum hist_g)).length := by
    simp [caffe_add, caffe_set, caffe_cpu_axpby, caffe_powx, hg]; omega
  have vU3 : (caffe_div (caffe_add (caffe_set diff.length delta) hist_u)
      (caffe_add (caffe_set diff.length delta)
        (caffe_cpu_axpby (1 - momentum) (caffe_powx diff 2) momentum hist_g))).getD j 0 =
      (hist_u.getD j 0 + delta) /
        ((1 - momentum) * diff.getD j 0 ^ 2 + momentum * hist_g.getD j 0 + delta) := by
    rw [caffe_div, getD_zipWith _ _ _ j hjU2 hjT2, vU2, vT2]
  have hjU3 : j < (caffe_div (caffe_add (caffe_set diff.length delta) hist_u)
      (caffe_add (caffe_set diff.length delta)
        (caffe_cpu_axpby (1 - momentum) (caffe_powx diff 2) momentum hist_g))).length := by
    simp [caffe_div, caffe_add, caffe_set, caffe_cpu_axpby, caffe_powx, hg, hu]; omega
  have vU4 : (caffe_powx (caffe_div (caffe_add (caffe_set diff.length delta) hist_u)
      (caffe_add (caffe_set diff.length delta)
        (caffe_cpu_axpby (1 - momentum) (caffe_powx diff 2) momentum hist_g)))
        (0.5 : ℝ)).getD j 0 =
      Real.sqrt ((hist_u.getD j 0 + delta) /
        ((1 - momentum) * diff.getD j 0 ^ 2 + momentum * hist_g.getD j 0 + delta)) := by
    rw [caffe_powx, getD_map _ _ j hjU3, hsqrt, vU3]
  have hjU4 : j < (caffe_powx (caffe_div (caffe_add (caffe_set diff.length delta) hist_u)
      (caffe_add (caffe_set diff.length delta)
        (caffe_cpu_axpby (1 - momentum) (caffe_powx diff 2) momentum hist_g)))
        (0.5 : ℝ)).length := by
    simpa [caffe_powx] using hjU3
  have vD1 : (caffe_mul diff (caffe_powx (caffe_div
      (caffe_add (caffe_set diff.length delta) hist_u)
      (caffe_add (caffe_set diff.length delta)
        (caffe_cpu_axpby (1 - momentum) (caffe_powx diff 2) momentum hist_g)))
        (0.5 : ℝ))).getD j 0 =
      Real.sqrt ((hist_u.getD j 0 + delta) /
        ((1 - momentum) * diff.getD j 0 ^ 2 + momentum * hist_g.getD j 0 + delta)) *
        diff.getD j 0 := by
    rw [caffe_mul, getD_zipWith _ _ _ j hj hjU4, vU4]
    ring
  have hjD1 : j < (caffe_mul diff (caffe_powx (caffe_div
      (caffe_add (caffe_set diff.length delta) hist_u)
      (caffe_add (caffe_set diff.length delta)
        (caffe_cpu_axpby (1 - momentum) (caffe_powx diff 2) momentum hist_g)))
        (0.5 : ℝ))).length := by
    simp [caffe_mul, caffe_powx, caffe_div, caffe_add, caffe_set, caffe_cpu_axpby, hg, hu]
    omega
  have vU5 : (caffe_powx (caffe_mul diff (caffe_powx (caffe_div
      (caffe_add (caffe_set diff.length delta) hist_u)
      (caffe_add (caffe_set diff.length delta)
        (caffe_cpu_axpby (1 - momentum) (caffe_powx diff 2) momentum hist_g)))
        (0.5 : ℝ))) 2).getD j 0 =
      (Real.sqrt ((hist_u.getD j 0 + delta) /
        ((1 - momentum) * diff.getD j 0 ^ 2 + momentum * hist_g.getD j 0 + delta)) *
        diff.getD j 0) ^ 2 := by
    rw [caffe_powx, getD_map _ _ j hjD1, hx2, vD1]
  have hjU5 : j < (caffe_powx (caffe_mul diff (caffe_powx (caffe_div
      (caffe_add (caffe_set diff.length delta) hist_u)
      (caffe_add (caffe_set diff.length delta)
        (caffe_cpu_axpby (1 - momentum) (caffe_powx diff 2) momentum hist_g)))
        (0.5 : ℝ))) 2).length := by
    simpa [caffe_powx] using hjD1
  simp only [adaDeltaTransform]
  refine ⟨vG1, ?_, ?_⟩
  · rw [caffe_copy, caffe_cpu_axpby, getD_zipWith _ _ _ j hjD1 hjT2, vD1]
    ring
  · rw [caffe_cpu_axpby, getD_zipWith _ _ _ j hjU5 (by omega), vU5]

/-- The network-level buffers seen by `AdaDeltaSolver::ComputeUpdateValue`:
parameter data and gradients, the per-parameter multipliers, the shared
`history_` list (of length `2n` after `AdaDeltaSolver::PreSolve`), and the
`update_` and `temp_` scratch lists. -/
structure AdaDeltaNet where
  data : List Buf
  diff : List Buf
  params_lr : List ℝ
  params_weight_decay : List ℝ
  history : List Buf
  upd : List Buf
  temp : List Buf

/-- Body of the `param_id` loop of `AdaDeltaSolver::ComputeUpdateValue`
(lines 826-933, CPU path) with `n = update_history_offset = net_params.size()`
(line 840): parameter `i` reads the gradient accumulator at `history_[i]` and
the update accumulator at `history_[n + i]` and writes both back, along with
the parameter's gradient and the scratch buffers. -/
noncomputable def AdaDeltaSolver.updateStep (p : SolverParameter) (t n : ℕ)
    (st : AdaDeltaNet) (i : ℕ) : Option AdaDeltaNet :=
  (AdaDeltaSolver.computeUpdateValueParam p t (st.params_lr.getD i 0)
      (st.params_weight_decay.getD i 0) (st.data.getD i [])
      (st.diff.getD i []) (st.history.getD i [])
      (st.history.getD (n + i) []) (st.temp.getD i [])).map
    (fun r =>
      { st with
        diff := st.diff.set i r.diff,
        history := (st.history.set i r.hist_g).set (n + i) r.hist_u,
        upd := st.upd.set i r.upd,
        temp := st.temp.set i r.temp })

/-- `AdaDeltaSolver::ComputeUpdateValue` at the network level (lines 826-933,
CPU path): the loop over `param_id` applies `AdaDeltaSolver.updateStep` with
`n = net_params.size()`. -/
noncomputable def AdaDeltaSolver.computeUpdateValueNet (p : SolverParameter) (t : ℕ)
    (net : AdaDeltaNet) : Option AdaDeltaNet :=
  (List.range net.data.length).foldlM
    (AdaDeltaSolver.updateStep p t net.data.length) net

/-- The per-parameter result the AdaDelta update is expected to produce,
from the original buffers: the transform applied to the post-decay gradient
`gd i`, the gradient accumulator `history[i]` and the update accumulator
`history[n + i]`. -/
noncomputable def adaDeltaExpected (p : SolverParameter) (rate : ℝ) (gd : ℕ → Buf)
    (net : AdaDeltaNet) (i : ℕ) : AdaDeltaResult :=
  adaDeltaTransform p.momentum p.delta (rate * net.params_lr.getD i 0) (gd i)
    (net.history.getD i []) (net.history.getD (net.data.length + i) [])

/-- Fold invariant for the AdaDelta network update after processing the
first `m` parameters: parameters `>= m` still hold their original buffers
and parameters `< m` hold the expected per-parameter results computed from
the original buffers. -/
@[reducible] def adaDeltaFoldInv (p : SolverParameter) (t : ℕ) (net : AdaDeltaNet)
    (rate : ℝ) (gd : ℕ → Buf) (m : ℕ) : Prop :=
  ∃ st : AdaDeltaNet,
    (List.range m).foldlM (AdaDeltaSolver.updateStep p t net.data.length) net = some st
    ∧ st.data = net.data
    ∧ st.params_lr = net.params_lr
    ∧ st.params_weight_decay = net.params_weight_decay
    ∧ st.diff.length = net.diff.length
    ∧ st.history.length = net.history.length
    ∧ st.upd.length = net.upd.length
    ∧ st.temp.length = net.temp.length
    ∧ (∀ i, m ≤ i →
        st.diff.getD i [] = net.diff.getD i []
        ∧ st.upd.getD i [] = net.upd.getD i []
        ∧ st.temp.getD i [] = net.temp.getD i [])
    ∧ (∀ i, m ≤ i → i < net.data.length →
        st.history.getD i [] = net.history.getD i []
        ∧ st.history.getD (net.data.length + i) [] =
            net.history.getD (net.data.length + i) [])
    ∧ (∀ i, i < m →
        st.diff.getD i [] = (adaDeltaExpected p rate gd net i).diff
        ∧ st.history.getD i [] = (adaDeltaExpected p rate gd net i).hist_g
        ∧ st.history.getD (net.data.length + i) [] =
            (adaDeltaExpected p rate gd net i).hist_u
        ∧ st.upd.getD i [] = (adaDeltaExpected p rate gd net i).upd
        ∧ st.temp.getD i [] = (adaDeltaExpected p rate gd net i).temp)

/-- The AdaDelta fold invariant holds at every prefix length `m` of the
parameter loop. -/
theorem adaDeltaNet_fold_inv (p : SolverParameter) (t : ℕ) (net : AdaDeltaNet)
    (rate : ℝ) (gd tp : ℕ → Buf)
    (hr : GetLearningRate p t = some rate)
    (hreg : ∀ i, i < net.data.length →
      applyRegularization p.regularization_type
        (AdaDeltaSolver.decayScaled p * net.params_weight_decay.getD i 0)
        (net.data.getD i []) (net.diff.getD i []) (net.temp.getD i []) =
        some (gd i, tp i))
    (hdl : net.diff.length = net.data.length)
    (hhl : net.history.length = 2 * net.data.length)
    (hul : net.upd.length = net.data.length)
    (htl : net.temp.length = net.data.length)
    (m : ℕ) (hm : m ≤ net.data.length) :
    adaDeltaFoldInv p t net rate gd m := by
  induction m with
  | zero =>
      exact ⟨net, by simp, rfl, rfl, rfl, rfl, rfl, rfl, rfl,
        fun i _ => ⟨rfl, rfl, rfl⟩, fun i _ _ => ⟨rfl, rfl⟩,
        fun i hi => absurd hi (by omega)⟩
  | succ m ih =>
      obtain ⟨st, hfold, hdata, hlr, hwd, hdl2, hhl2, hul2, htl2, hun, hunh, hdone⟩ :=
        ih (by omega)
      have hmn : m < net.data.length := by omega
      have hargs := hun m (le_refl m)
      have hargsh := hunh m (le_refl m) hmn
      have hstep : AdaDeltaSolver.computeUpdateValueParam p t (st.params_lr.getD m 0)
          (st.params_weight_decay.getD m 0) (st.data.getD m [])
          (st.diff.getD m []) (st.history.getD m [])
          (st.history.getD (net.data.length + m) []) (st.temp.getD m []) =
          some (adaDeltaExpected p rate gd net m) := by
        rw [hdata, hlr, hwd, hargs.1, hargs.2.2, hargsh.1, hargsh.2]
        rw [AdaDeltaSolver.computeUpdateValueParam,
          show AdaDeltaSolver.rateScaled p t = some rate from hr, Option.some_bind,
          hreg m hmn, Option.map_some']
        rfl
      refine ⟨{ st with
          diff := st.diff.set m (adaDeltaExpected p rate gd net m).diff,
          history := (st.history.set m (adaDeltaExpected p rate gd net m).hist_g).set
            (net.data.length + m) (adaDeltaExpected p rate gd net m).hist_u,
          upd := st.upd.set m (adaDeltaExpected p rate gd net m).upd,
          temp := st.temp.set m (adaDeltaExpected p rate gd net m).temp }, ?_,
        hdata, hlr, hwd, by simp [hdl2], by simp [hhl2], by simp [hul2], by simp [htl2],
        ?_, ?_, ?_⟩
      · rw [List.range_succ, List.foldlM_append, hfold]
        simp only [Option.bind_eq_bind, Option.some_bind, List.foldlM_cons,
          AdaDeltaSolver.updateStep, hstep, Option.map_some', List.foldlM_nil,
          Option.pure_def]
      · intro i hi
        have h1 : m ≠ i := by omega
        exact ⟨by simp only [getD_set_ne _ _ _ _ _ h1]; exact (hun i (by omega)).1,
          by simp only [getD_set_ne _ _ _ _ _ h1]; exact (hun i (by omega)).2.1,
          by simp only [getD_set_ne _ _ _ _ _ h1]; exact (hun i (by omega)).2.2⟩
      · intro i hi hin
        have h1 : m ≠ i := by omega
        have h2 : net.data.length + m ≠ i := by omega
        have h3 : m ≠ net.data.length + i := by omega
        have h4 : net.data.length + m ≠ net.data.length + i := by omega
        exact ⟨by
            simp only [getD_set_ne _ _ _ _ _ h2, getD_set_ne _ _ _ _ _ h1]
            exact (hunh i (by omega) hin).1,
          by
            simp only [getD_set_ne _ _ _ _ _ h4, getD_set_ne _ _ _ _ _ h3]
            exact (hunh i (by omega) hin).2⟩
      · intro i hi
        by_cases him : i = m
        · subst him
          have hbd : i < st.diff.length := by omega
          have hbh : i < st.history.length := by omega
          have hbh2 : i < (st.history.set i (adaDeltaExpected p rate gd net i).hist_g).length := by
            simp [hhl2]; omega
          have hbhn : net.data.length + i <
              (st.history.set i (adaDeltaExpected p rate gd net i).hist_g).length := by
            simp [hhl2]; omega
          have hbu : i < st.upd.length := by omega
          have hbt : i < st.temp.length := by omega
          have hne : net.data.length + i ≠ i := by omega
          exact ⟨getD_set_eq _ _ _ _ hbd,
            by rw [getD_set_ne _ _ _ _ _ hne]; exact getD_set_eq _ _ _ _ hbh,
            getD_set_eq _ _ _ _ hbhn,
            getD_set_eq _ _ _ _ hbu,
            getD_set_eq _ _ _ _ hbt⟩
        · have hlt : i < m := by omega
          have h1 : m ≠ i := by omega
          have h2 : net.data.length + m ≠ i := by omega
          have h3 : m ≠ net.data.length + i := by omega
          have h4 : net.data.length + m ≠ net.data.length + i := by omega
          obtain ⟨d1, d2, d3, d4, d5⟩ := hdone i hlt
          exact ⟨by simp only [getD_set_ne _ _ _ _ _ h1]; exact d1,
            by simp only [getD_set_ne _ _ _ _ _ h2, getD_set_ne _ _ _ _ _ h1]; exact d2,
            by simp only [getD_set_ne _ _ _ _ _ h4, getD_set_ne _ _ _ _ _ h3]; exact d3,
            by simp only [getD_set_ne _ _ _ _ _ h1]; exact d4,
            by simp only [getD_set_ne _ _ _ _ _ h1]; exact d5⟩

/-- C8: the AdaDelta rule keeps, per parameter `i`, a gradient accumulator
at history index `i` and an update accumulator at history index `n + i`
(`n` = parameter count, the `update_history_offset`); per element with
post-decay gradient `g` it computes
`grad_h' = (1-momentum)*g^2 + momentum*grad_h`, then
`delta_upd = sqrt((update_h + delta)/(grad_h' + delta)) * g`, then
`update_h' = (1-momentum)*delta_upd^2 + momentum*update_h`, and writes
`local_rate * delta_upd` into the gradient buffer. -/
theorem adaDelta_update_spec (p : SolverParameter) (t : ℕ) (net : AdaDeltaNet)
    (rate : ℝ) (gd tp : ℕ → Buf)
    (hr : GetLearningRate p t = some rate)
    (hreg : ∀ i, i < net.data.length →
      applyRegularization p.regularization_type
        (AdaDeltaSolver.decayScaled p * net.params_weight_decay.getD i 0)
        (net.data.getD i []) (net.diff.getD i []) (net.temp.getD i []) =
        some (gd i, tp i))
    (hdl : net.diff.length = net.data.length)
    (hhl : net.history.length = 2 * net.data.length)
    (hul : net.upd.length = net.data.length)
    (htl : net.temp.length = net.data.length) :
    ∃ net2 : AdaDeltaNet,
      AdaDeltaSolver.computeUpdateValueNet p t net = some net2
      ∧ (∀ i, i < net.data.length →
          net2.diff.getD i [] = (adaDeltaExpected p rate gd net i).diff
          ∧ net2.history.getD i [] = (adaDeltaExpected p rate gd net i).hist_g
          ∧ net2.history.getD (net.data.length + i) [] =
              (adaDeltaExpected p rate gd net i).hist_u)
      ∧ (∀ i, i < net.data.length →
          (net.history.getD i []).length = (gd i).length →
          (net.history.getD (net.data.length + i) []).length = (gd i).length →
          ∀ j, j < (gd i).length →
          (net2.history.getD i []).getD j 0 =
              (1 - p.momentum) * ((gd i).getD j 0) ^ 2 +
                p.momentum * (net.history.getD i []).getD j 0
          ∧ (net2.diff.getD i []).getD j 0 =
              rate * net.params_lr.getD i 0 *
                (Real.sqrt (((net.history.getD (net.data.length + i) []).getD j 0 + p.delta) /
                    ((1 - p.momentum) * ((gd i).getD j 0) ^ 2 +
                      p.momentum * (net.history.getD i []).getD j 0 + p.delta)) *
                  (gd i).getD j 0)
          ∧ (net2.history.getD (net.data.length + i) []).getD j 0 =
              (1 - p.momentum) *
                (Real.sqrt (((net.history.getD (net.data.length + i) []).getD j 0 + p.delta) /
                    ((1 - p.momentum) * ((gd i).getD j 0) ^ 2 +
                      p.momentum * (net.history.getD i []).getD j 0 + p.delta)) *
                  (gd i).getD j 0) ^ 2 +
                p.momentum * (net.history.getD (net.data.length + i) []).getD j 0) := by
  obtain ⟨st, hfold, h2, h3, h4, h5, h6, h7, h8, h9, h10, hdone⟩ :=
    adaDeltaNet_fold_inv p t net rate gd tp hr hreg hdl hhl hul htl net.data.length
      (le_refl _)
  refine ⟨st, ?_, ?_, ?_⟩
  · rw [AdaDeltaSolver.computeUpdateValueNet]
    exact hfold
  · intro i hi
    obtain ⟨d1, d2, d3, _, _⟩ := hdone i hi
    exact ⟨d1, d2, d3⟩
  · intro i hi hlg hlu j hj
    obtain ⟨d1, d2, d3, _, _⟩ := hdone i hi
    rw [d1, d2, d3]
    have hspec := adaDeltaTransform_spec p.momentum p.delta
      (rate * net.params_lr.getD i 0) (gd i) (net.history.getD i [])
      (net.history.getD (net.data.length + i) []) hlg hlu j hj
    exact ⟨hspec.1, hspec.2.1, hspec.2.2⟩

/-- An AdaDelta solver configuration: fixed learning rate 1, momentum 0,
weight decay 0, smoothing delta 1. -/
noncomputable def adaDeltaExampleParam : SolverParameter :=
  { stepExampleParam with
    lr_policy := "fixed",
    base_lr := 1,
    delta := 1 }

/-- A one-parameter AdaDelta network: one element per blob, gradient 2,
both accumulators zero. -/
noncomputable def adaDeltaExampleNet : AdaDeltaNet :=
  { data := [[1]], diff := [[2]], params_lr := [1], params_weight_decay := [1],
    history := [[0], [0]], upd := [[0]], temp := [[0]] }

/-- Witness for `adaDelta_update_spec` at the concrete one-parameter net. -/
theorem adaDelta_update_spec_witness :
    ∃ net2 : AdaDeltaNet,
      AdaDeltaSolver.computeUpdateValueNet adaDeltaExampleParam 0 adaDeltaExampleNet =
        some net2
      ∧ net2.diff.getD 0 [] =
          (adaDeltaExpected adaDeltaExampleParam 1 (fun _ => [2]) adaDeltaExampleNet 0).diff
      ∧ net2.history.getD 0 [] =
          (adaDeltaExpected adaDeltaExampleParam 1 (fun _ => [2]) adaDeltaExampleNet 0).hist_g
      ∧ net2.history.getD 1 [] =
          (adaDeltaExpected adaDeltaExampleParam 1 (fun _ => [2]) adaDeltaExampleNet 0).hist_u := by
  obtain ⟨net2, h1, h2, h3⟩ := adaDelta_update_spec adaDeltaExampleParam 0
    adaDeltaExampleNet 1 (fun _ => [2]) (fun _ => [0])
    (by norm_num [GetLearningRate, adaDeltaExampleParam, stepExampleParam])
    (by
      intro i hi
      have hi0 : i = 0 := by simpa [adaDeltaExampleNet] using hi
      subst hi0
      simp [applyRegularization, AdaDeltaSolver.decayScaled, adaDeltaExampleParam,
        stepExampleParam, adaDeltaExampleNet])
    (by simp [adaDeltaExampleNet]) (by simp [adaDeltaExampleNet])
    (by simp [adaDeltaExampleNet]) (by simp [adaDeltaExampleNet])
  obtain ⟨d1, d2, d3⟩ := h2 0 (by simp [adaDeltaExampleNet])
  exact ⟨net2, h1, d1, d2, d3⟩
